import Mathlib

/-!
Verification of the GPIO register-access layer (`stm32-extras`).

The development shallowly embeds `src/lib.rs`:

* `write_pin_range` / `read_pin_range` (the `GPIOExtras` impl for the
  GPIO register block) become pure functions over `Nat` with explicit
  16-bit / 32-bit truncation mirroring Rust release-build integer
  semantics (`x << s` masks the shift amount by the width, wrapping
  arithmetic reduces modulo `2^w`);
* the port itself becomes a small explicit state (`PortState`) recording
  the output latch driven through the BSRR register, together with an
  effect log (number of IDR reads, list of BSRR writes), so that claims
  about "single write", "no read" and frame conditions are statable;
* the bit-band configuration overlay (`GPIOBitbandConfigBlock`) becomes a
  four-field record `ConfigState`, and every builder method becomes the
  list of volatile stores its body performs, in program order.
-/

namespace Stm32Extras

/-! ## Bit-range codec (from `write_pin_range` / `read_pin_range`) -/

/-- All-ones 16-bit mask, the value `0xFFFF`; `x ^^^ mask16` is Rust's
`!x` on a `u16` value `x < 2^16`. -/
def mask16 : Nat := 2 ^ 16 - 1

/-- The `mask` local of `write_pin_range`/`read_pin_range`:
`let mask = (1 << count) - 1;` computed at type `u16`.
Rust release builds mask the shift amount by the width (16), hence
`count % 16`; the `% 2^16` keeps the intermediate in `u16`. -/
def rangeMask (count : Nat) : Nat := (1 <<< (count % 16)) % 2 ^ 16 - 1

/-- Condition under which the `1 << count` in the `u16` mask computation
overflows its width: Rust debug builds panic here ("attempt to shift left
with overflow"); release builds wrap the shift amount. -/
def maskShiftOverflows (count : Nat) : Prop := 16 ≤ count

instance (count : Nat) : Decidable (maskShiftOverflows count) :=
  inferInstanceAs (Decidable (16 ≤ count))

/-- The 32-bit value `write_pin_range` writes to BSRR:
`bits = u32::from(data & mask) | (u32::from(!data & mask) << 16)`,
written value `bits << offset` (a `u32` shift: amount masked by 32,
result reduced modulo `2^32`). -/
def writePinRangeBits (offset count data : Nat) : Nat :=
  let d := data % 2 ^ 16
  let mask := rangeMask count
  let bits := (d &&& mask) ||| (((d ^^^ mask16) &&& mask) <<< 16)
  (bits <<< (offset % 32)) % 2 ^ 32

/-- The value `read_pin_range` returns from a raw IDR read:
`((idr >> offset) as u16) & mask`. -/
def readPinRangeValue (offset count raw : Nat) : Nat :=
  ((raw >>> (offset % 32)) % 2 ^ 16) &&& rangeMask count

/-! ## Port state and register semantics -/

/-- Modelled from the spec: the dual-mask set/reset register (§6):
writing `v`, bits `[0,16)` of `v` set the designated pins, bits
`[16,32)` clear them (set has priority), unwritten bits are a no-op.
`odr` is the 16-bit output latch holding the pin states. -/
def bsrrApply (v odr : Nat) : Nat :=
  ((odr % 2 ^ 16) &&& (((v >>> 16) % 2 ^ 16) ^^^ mask16)) ||| (v % 2 ^ 16)

/-- A GPIO port as seen by the range operations: the output latch
(`odr`, reflected by the input-data register in the simulated pair) plus
an effect log (how many IDR reads happened, the list of BSRR writes in
order). -/
structure PortState where
  odr : Nat
  idrReads : Nat
  bsrrWrites : List Nat
  deriving DecidableEq, Repr

/-- `fn write_pin_range(&self, offset, count, data)`: computes the
set/clear word and performs a single BSRR write (no read). -/
def write_pin_range (offset count data : Nat) (s : PortState) : PortState :=
  let v := writePinRangeBits offset count data
  { odr := bsrrApply v s.odr
    idrReads := s.idrReads
    bsrrWrites := s.bsrrWrites ++ [v] }

/-- `fn read_pin_range(&self, offset, count) -> u16`: one IDR read
(the simulated IDR reflects the pin states `odr`), decoded by shifting
and masking; the port registers are untouched. -/
def read_pin_range (offset count : Nat) (s : PortState) : Nat × PortState :=
  let raw := s.odr
  (readPinRangeValue offset count raw,
   { s with idrReads := s.idrReads + 1 })

/-- The value of pin lane `i` of the port. -/
def pinValue (s : PortState) (i : Nat) : Bool := s.odr.testBit i

/-- The claim's encoding formula, read off the spec's words with the
mask `(1 << count) - 1` taken at its mathematical value:
`((data & mask) << offset) | ((~data & mask) << (offset + 16))`. -/
def specEncodeWrite (offset count data : Nat) : Nat :=
  ((data &&& (2 ^ count - 1)) <<< offset) |||
    (((data ^^^ mask16) &&& (2 ^ count - 1)) <<< (offset + 16))

/-! ## Pin configuration overlay (from `GPIOBitbandConfigBlock`) -/

/-- The four volatile cells of `GPIOBitbandConfigBlock`, one record per
pin in the bit-band overlay. Each cell is a full 32-bit word aliasing a
single configuration bit. -/
structure ConfigState where
  mode_low : Nat
  mode_high : Nat
  cnf_low : Nat
  cnf_high : Nat
  deriving DecidableEq, Repr

/-- The four fields of `GPIOBitbandConfigBlock`, in declaration order. -/
inductive ConfigField where
  | mode_low
  | mode_high
  | cnf_low
  | cnf_high
  deriving DecidableEq, Repr

/-- One volatile store `cell.set(v)` on a configuration block. -/
def setField (f : ConfigField) (v : Nat) (s : ConfigState) : ConfigState :=
  match f with
  | .mode_low => { s with mode_low := v }
  | .mode_high => { s with mode_high := v }
  | .cnf_low => { s with cnf_low := v }
  | .cnf_high => { s with cnf_high := v }

/-- The builder methods of `GPIOBitbandConfigBlock`. -/
inductive PinOp where
  | input
  | output2
  | output10
  | output50
  | push_pull
  | open_drain
  | general
  | alternate
  | analog
  | floating
  | pull_up_down
  deriving DecidableEq, Repr

/-- The volatile stores each builder method performs, in program order,
transcribed from the method bodies in `src/lib.rs`. -/
def opStores : PinOp → List (ConfigField × Nat)
  | .input => [(.mode_low, 0), (.mode_high, 0)]
  | .output2 => [(.mode_low, 0), (.mode_high, 1)]
  | .output10 => [(.mode_low, 1), (.mode_high, 0)]
  | .output50 => [(.mode_low, 1), (.mode_high, 1)]
  | .push_pull => [(.cnf_low, 0)]
  | .open_drain => [(.cnf_low, 1)]
  | .general => [(.cnf_high, 0)]
  | .alternate => [(.cnf_high, 1)]
  | .analog => [(.cnf_low, 0), (.cnf_high, 0)]
  | .floating => [(.cnf_high, 0), (.cnf_low, 1)]
  | .pull_up_down => [(.cnf_low, 0), (.cnf_high, 1)]

/-- Apply a list of stores left to right. -/
def applyStores (l : List (ConfigField × Nat)) (s : ConfigState) : ConfigState :=
  l.foldl (fun t p => setField p.1 p.2 t) s

/-- Run one builder method on a pin's configuration block. -/
def runOp (op : PinOp) (s : ConfigState) : ConfigState :=
  applyStores (opStores op) s

/-- The reserved transient the `floating` comment guards against:
cnf-low and cnf-high simultaneously 1. -/
def reservedPair (s : ConfigState) : Prop := s.cnf_low = 1 ∧ s.cnf_high = 1

instance (s : ConfigState) : Decidable (reservedPair s) :=
  inferInstanceAs (Decidable (_ ∧ _))

/-- A cell holds a bit value. -/
def isBit (n : Nat) : Prop := n = 0 ∨ n = 1

instance (n : Nat) : Decidable (isBit n) := inferInstanceAs (Decidable (_ ∨ _))

/-- All four cells of a block hold bit values. -/
def blockBits (s : ConfigState) : Prop :=
  isBit s.mode_low ∧ isBit s.mode_high ∧ isBit s.cnf_low ∧ isBit s.cnf_high

instance (s : ConfigState) : Decidable (blockBits s) :=
  inferInstanceAs (Decidable (_ ∧ _))

/-- A whole port's configuration: one block per pin (the 16-element
`config` array of `GPIOBitbandRegisterBlock`), i.e. 64 cells. -/
def PortConfig : Type := Fin 16 → ConfigState

/-- Run a builder method on pin `p` of a port, leaving the other pins'
blocks untouched (they are distinct memory). -/
def runOpAt (p : Fin 16) (op : PinOp) (c : PortConfig) : PortConfig :=
  fun q => if q = p then runOp op (c q) else c q

/-- All 64 configuration cells of the port hold bit values. -/
def portBits (c : PortConfig) : Prop := ∀ p : Fin 16, blockBits (c p)

instance (c : PortConfig) : Decidable (portBits c) :=
  inferInstanceAs (Decidable (∀ p : Fin 16, blockBits (c p)))

/-! ## Bit-band translation and overlay layout -/

/-- `const PERIPHERALS_BASE: usize = 0x4000_0000;` -/
def PERIPHERALS_BASE : Nat := 0x40000000

/-- `const PERIPHERALS_ALIAS: usize = 0x4200_0000;` -/
def PERIPHERALS_ALIAS : Nat := 0x42000000

/-- `fn to_bitband_address`: `PERIPHERALS_ALIAS + (addr - PERIPHERALS_BASE) * 32`. -/
def to_bitband_address (r : Nat) : Nat :=
  PERIPHERALS_ALIAS + (r - PERIPHERALS_BASE) * 32

/-- Byte size of `GPIOBitbandConfigBlock`: four 32-bit cells. -/
def configBlockSize : Nat := 16

/-- Byte offset of each cell inside `GPIOBitbandConfigBlock`
(declaration order, four bytes per `VolatileCell<u32>`). -/
def fieldByteOffset : ConfigField → Nat
  | .mode_low => 0
  | .mode_high => 4
  | .cnf_low => 8
  | .cnf_high => 12

/-- Address of the handle `pin_config(pin)` returns: the bit-band alias
of the port base plus the offset of entry `pin` of the 16-element
`config` array. -/
def pin_config_address (r pin : Nat) : Nat :=
  to_bitband_address r + pin * configBlockSize

/-- Byte offset, within the port's alias region, of one configuration
cell: entry `pin` of the array, then the field inside the block. -/
def cellByteOffset (pin : Nat) (f : ConfigField) : Nat :=
  pin * configBlockSize + fieldByteOffset f

/-- Alias word index of a cell: the bit-band region holds one 32-bit
word per original bit, so word `k` of the alias region is bit `k` of
the original register block. -/
def cellWordIndex (pin : Nat) (f : ConfigField) : Nat :=
  cellByteOffset pin f / 4

/-- Which 32-bit configuration register of the real block a cell
aliases (0 = first register, covering alias words 0–31). -/
def aliasedRegister (pin : Nat) (f : ConfigField) : Nat :=
  cellWordIndex pin f / 32

/-- Which bit of that register the cell aliases. -/
def aliasedBitIndex (pin : Nat) (f : ConfigField) : Nat :=
  cellWordIndex pin f % 32

/-- The layout the claim asserts: a 32-bit mode register (register 0)
holding bits 2p, 2p+1 for pin p, and a separate cnf register
(register 1) likewise. -/
def specAliasedRegister : ConfigField → Nat
  | .mode_low => 0
  | .mode_high => 0
  | .cnf_low => 1
  | .cnf_high => 1

/-- Bit position the claim asserts within that register. -/
def specAliasedBitIndex (pin : Nat) (f : ConfigField) : Nat :=
  match f with
  | .mode_low => 2 * pin
  | .mode_high => 2 * pin + 1
  | .cnf_low => 2 * pin
  | .cnf_high => 2 * pin + 1

/-- The spec's translation formula with its literal constants:
`ALIAS_BASE + (real_address - PERIPHERAL_BASE) * 32`. -/
def spec_alias_address (r : Nat) : Nat := 0x42000000 + (r - 0x40000000) * 32

/-! ## Bit-level lemmas -/

theorem rangeMask_eq {count : Nat} (h : count < 16) : rangeMask count = 2 ^ count - 1 := by
  have h1 : count % 16 = count := Nat.mod_eq_of_lt h
  have h2 : (2 : Nat) ^ count < 2 ^ 16 := Nat.pow_lt_pow_right (by norm_num) h
  rw [rangeMask, h1, Nat.one_shiftLeft, Nat.mod_eq_of_lt h2]

/-- Bit `j` of the value written to BSRR: bit `j - offset` of `data`
inside the set window, the complement of bit `j - (offset + 16)` inside
the clear window, `false` elsewhere. -/
theorem writePinRangeBits_testBit (offset count data : Nat) (h1 : offset + count ≤ 16)
    (h2 : count < 16) (hd : data < 2 ^ 16) (j : Nat) :
    (writePinRangeBits offset count data).testBit j =
      (((decide (offset ≤ j) && decide (j < offset + count)) && data.testBit (j - offset)) ||
        ((decide (offset + 16 ≤ j) && decide (j < offset + 16 + count)) &&
          !(data.testBit (j - (offset + 16))))) := by
  have ho : offset % 32 = offset := Nat.mod_eq_of_lt (by omega)
  have hdm : data % 2 ^ 16 = data := Nat.mod_eq_of_lt hd
  have hm : rangeMask count = 2 ^ count - 1 := rangeMask_eq h2
  have hsub : j - offset - 16 = j - (offset + 16) := by omega
  simp only [writePinRangeBits, ho, hdm, hm, mask16,
    Nat.testBit_mod_two_pow, Nat.testBit_shiftLeft, Nat.testBit_or, Nat.testBit_and,
    Nat.testBit_xor, Nat.testBit_two_pow_sub_one, hsub]
  generalize data.testBit (j - offset) = b1
  generalize data.testBit (j - (offset + 16)) = b2
  cases b1 <;> cases b2 <;>
    by_cases c1 : offset ≤ j <;> by_cases c2 : j < offset + count <;>
    by_cases c3 : offset + 16 ≤ j <;> by_cases c4 : j < offset + 16 + count <;>
    simp [c1, c2, c3, c4] <;> omega

/-- The spec formula has the same bits. -/
theorem specEncodeWrite_testBit (offset count data : Nat)
    (h2 : count < 16) (j : Nat) :
    (specEncodeWrite offset count data).testBit j =
      (((decide (offset ≤ j) && decide (j < offset + count)) && data.testBit (j - offset)) ||
        ((decide (offset + 16 ≤ j) && decide (j < offset + 16 + count)) &&
          !(data.testBit (j - (offset + 16))))) := by
  simp only [specEncodeWrite, mask16, Nat.testBit_or, Nat.testBit_shiftLeft,
    Nat.testBit_and, Nat.testBit_xor, Nat.testBit_two_pow_sub_one]
  generalize data.testBit (j - offset) = b1
  generalize data.testBit (j - (offset + 16)) = b2
  cases b1 <;> cases b2 <;>
    by_cases c1 : offset ≤ j <;> by_cases c2 : j < offset + count <;>
    by_cases c3 : offset + 16 ≤ j <;> by_cases c4 : j < offset + 16 + count <;>
    simp [c1, c2, c3, c4] <;> omega

/-- Within the documented domain (and below the `count = 16` overflow
boundary) the code's written value is exactly the spec's formula. -/
theorem writePinRangeBits_eq_spec (offset count data : Nat) (h1 : offset + count ≤ 16)
    (h2 : count < 16) (hd : data < 2 ^ 16) :
    writePinRangeBits offset count data = specEncodeWrite offset count data := by
  apply Nat.eq_of_testBit_eq
  intro j
  rw [writePinRangeBits_testBit offset count data h1 h2 hd j,
    specEncodeWrite_testBit offset count data h2 j]

/-- At `count = 16` the `u16` mask wraps to `0` and the written value
collapses to `0`, whatever the data. -/
theorem writePinRangeBits_count16 (offset data : Nat) :
    writePinRangeBits offset 16 data = 0 := by
  have hm : rangeMask 16 = 0 := by decide
  simp [writePinRangeBits, hm]

/-- Bit `i` of the port latch after a BSRR write: set bits win, then
clear bits, then the old value; lanes at 16 and above do not exist. -/
theorem bsrrApply_testBit (v odr i : Nat) :
    (bsrrApply v odr).testBit i =
      (decide (i < 16) && ((odr.testBit i && !(v.testBit (16 + i))) || v.testBit i)) := by
  simp only [bsrrApply, mask16, Nat.testBit_or, Nat.testBit_and, Nat.testBit_mod_two_pow,
    Nat.testBit_xor, Nat.testBit_shiftRight, Nat.testBit_two_pow_sub_one]
  generalize odr.testBit i = b1
  generalize v.testBit (16 + i) = b2
  generalize v.testBit i = b3
  by_cases c : i < 16 <;> cases b1 <;> cases b2 <;> cases b3 <;> simp [c]

/-- The latch stays a 16-bit value. -/
theorem bsrrApply_lt (v odr : Nat) : bsrrApply v odr < 2 ^ 16 := by
  apply Nat.or_lt_two_pow
  · exact lt_of_le_of_lt Nat.and_le_left (Nat.mod_lt _ (by norm_num))
  · exact Nat.mod_lt _ (by norm_num)

/-- Writing a range and reading it back through the simulated register
pair recovers the masked data. -/
theorem readAfterWriteValue (offset count data odr : Nat) (h1 : offset + count ≤ 16)
    (h2 : count < 16) (hd : data < 2 ^ 16) :
    readPinRangeValue offset count (bsrrApply (writePinRangeBits offset count data) odr) =
      data &&& (2 ^ count - 1) := by
  have ho : offset % 32 = offset := Nat.mod_eq_of_lt (by omega)
  have hm : rangeMask count = 2 ^ count - 1 := rangeMask_eq h2
  apply Nat.eq_of_testBit_eq
  intro k
  simp only [readPinRangeValue, ho, hm, Nat.testBit_and, Nat.testBit_mod_two_pow,
    Nat.testBit_shiftRight, Nat.testBit_two_pow_sub_one, bsrrApply_testBit,
    writePinRangeBits_testBit offset count data h1 h2 hd]
  by_cases hk : k < count
  · have e1 : offset + k - offset = k := by omega
    have e2 : 16 + (offset + k) - (offset + 16) = k := by omega
    simp only [e1, e2]
    simp [hk, show k < 16 from by omega, show offset ≤ offset + k from by omega,
      show offset + k < offset + count from by omega,
      show offset + k < 16 from by omega,
      show ¬(offset + 16 ≤ offset + k) from by omega,
      show offset + 16 ≤ 16 + (offset + k) from by omega,
      show 16 + (offset + k) < offset + 16 + count from by omega,
      show ¬(16 + (offset + k) < offset + count) from by omega]
  · simp [hk]

/-- Outside both the set window and the clear window the written BSRR
value has no bits, for every `count` in the documented domain (at
`count = 16` the written value is `0` outright). -/
theorem writePinRangeBits_outside (offset count data j : Nat) (h1 : offset + count ≤ 16)
    (hd : data < 2 ^ 16)
    (hj1 : ¬(offset ≤ j ∧ j < offset + count))
    (hj2 : ¬(offset + 16 ≤ j ∧ j < offset + 16 + count)) :
    (writePinRangeBits offset count data).testBit j = false := by
  rcases Nat.lt_or_ge count 16 with hc | hc
  · rw [writePinRangeBits_testBit offset count data h1 hc hd j]
    generalize data.testBit (j - offset) = b1
    generalize data.testBit (j - (offset + 16)) = b2
    by_cases c1 : offset ≤ j <;> by_cases c2 : j < offset + count <;>
      by_cases c3 : offset + 16 ≤ j <;> by_cases c4 : j < offset + 16 + count <;>
      simp [c1, c2, c3, c4] <;> omega
  · have hc16 : count = 16 := by omega
    subst hc16
    rw [writePinRangeBits_count16]
    exact Nat.zero_testBit j

/-- Frame property at the latch level: a range write leaves every lane
outside `[offset, offset + count)` exactly as it was. -/
theorem bsrr_write_frame (offset count data odr i : Nat) (h1 : offset + count ≤ 16)
    (hd : data < 2 ^ 16) (hodr : odr < 2 ^ 16)
    (hi : ¬(offset ≤ i ∧ i < offset + count)) :
    (bsrrApply (writePinRangeBits offset count data) odr).testBit i = odr.testBit i := by
  rcases Nat.lt_or_ge i 16 with h16 | h16
  · rw [bsrrApply_testBit]
    have hv1 : (writePinRangeBits offset count data).testBit i = false :=
      writePinRangeBits_outside offset count data i h1 hd hi (by omega)
    have hv2 : (writePinRangeBits offset count data).testBit (16 + i) = false :=
      writePinRangeBits_outside offset count data (16 + i) h1 hd (by omega) (by omega)
    simp [hv1, hv2, h16]
  · have hb : bsrrApply (writePinRangeBits offset count data) odr < 2 ^ i :=
      lt_of_lt_of_le (bsrrApply_lt _ _) (Nat.pow_le_pow_right (by norm_num) h16)
    have hodr2 : odr < 2 ^ i :=
      lt_of_lt_of_le hodr (Nat.pow_le_pow_right (by norm_num) h16)
    rw [Nat.testBit_lt_two_pow hb, Nat.testBit_lt_two_pow hodr2]

/-- Masking the data before encoding does not change the spec formula:
bits of `data` at positions at or above `count` are irrelevant. -/
theorem specEncodeWrite_mask_eq (offset count data : Nat) (h2 : count < 16) :
    specEncodeWrite offset count (data &&& (2 ^ count - 1)) = specEncodeWrite offset count data := by
  apply Nat.eq_of_testBit_eq
  intro j
  rw [specEncodeWrite_testBit offset count _ h2 j, specEncodeWrite_testBit offset count data h2 j]
  simp only [Nat.testBit_and, Nat.testBit_two_pow_sub_one]
  generalize data.testBit (j - offset) = b1
  generalize data.testBit (j - (offset + 16)) = b2
  by_cases c1 : offset ≤ j <;> by_cases c2 : j < offset + count <;>
    by_cases c3 : offset + 16 ≤ j <;> by_cases c4 : j < offset + 16 + count <;>
    by_cases c5 : j - offset < count <;> by_cases c6 : j - (offset + 16) < count <;>
    simp [c1, c2, c3, c4, c5, c6] <;> omega

/-- Every builder method maps bit-valued blocks to bit-valued blocks. -/
theorem blockBits_runOp (op : PinOp) (s : ConfigState) (h : blockBits s) :
    blockBits (runOp op s) := by
  obtain ⟨h1, h2, h3, h4⟩ := h
  cases op <;> simp_all [runOp, applyStores, opStores, setField, blockBits, isBit]

/-- Running a builder method on one pin preserves bit-valuedness of all
64 cells of the port. -/
theorem portBits_runOpAt (p : Fin 16) (op : PinOp) (c : PortConfig) (h : portBits c) :
    portBits (runOpAt p op c) := by
  intro q
  by_cases hq : q = p
  · simpa [runOpAt, hq] using blockBits_runOp op (c q) (h q)
  · simpa [runOpAt, hq] using h q

/-! ## Claim theorems -/

/-- C1, counterexample: at `offset = 0`, `count = 16` (allowed by
`offset + count ≤ 16`) the code writes `0` while the claimed formula
gives `0xFFFF0000` (for `data = 0`), because the `u16` mask computation
wraps. -/
theorem write_encode_count16_counterexample :
    writePinRangeBits 0 16 0 ≠ specEncodeWrite 0 16 0 ∧
    writePinRangeBits 0 16 0 = 0 ∧ specEncodeWrite 0 16 0 = 0xFFFF0000 := by
  refine ⟨by decide, by decide, by decide⟩

/-- C1 (amended with `count < 16`): `write_pin_range` performs exactly
one BSRR write, of exactly the claimed value
`((data & mask) << offset) | ((~data & mask) << (offset + 16))` with
`mask = (1 << count) - 1`; it performs no read; bits of `data` at
positions at or above `count` do not influence the written value; and
`offset = 13`, `count = 3`, `data = 0b101` writes
`(0b101 << 13) | (0b010 << (13 + 16))`. -/
theorem write_encode_spec_formula (offset count data : Nat) (s : PortState)
    (h1 : offset + count ≤ 16) (h2 : count < 16) (hd : data < 2 ^ 16) :
    (write_pin_range offset count data s).bsrrWrites =
        s.bsrrWrites ++ [specEncodeWrite offset count data] ∧
    (write_pin_range offset count data s).idrReads = s.idrReads ∧
    writePinRangeBits offset count data =
      writePinRangeBits offset count (data &&& (2 ^ count - 1)) ∧
    writePinRangeBits 13 3 5 = (5 <<< 13) ||| (2 <<< 29) := by
  have hd2 : data &&& (2 ^ count - 1) < 2 ^ 16 := lt_of_le_of_lt Nat.and_le_left hd
  refine ⟨?_, rfl, ?_, by decide⟩
  · simp [write_pin_range, writePinRangeBits_eq_spec offset count data h1 h2 hd]
  · rw [writePinRangeBits_eq_spec offset count data h1 h2 hd,
      writePinRangeBits_eq_spec offset count _ h1 h2 hd2,
      specEncodeWrite_mask_eq offset count data h2]

/-- Witness for `write_encode_spec_formula` at offset 13, count 3,
data 0b101 on an empty log. -/
theorem write_encode_spec_formula_witness :
    (13 + 3 ≤ 16 ∧ 3 < 16 ∧ 5 < 2 ^ 16) ∧
    ((write_pin_range 13 3 5 ⟨0, 0, []⟩).bsrrWrites =
        ([] : List Nat) ++ [specEncodeWrite 13 3 5] ∧
      (write_pin_range 13 3 5 ⟨0, 0, []⟩).idrReads = (PortState.mk 0 0 []).idrReads ∧
      writePinRangeBits 13 3 5 = writePinRangeBits 13 3 (5 &&& (2 ^ 3 - 1)) ∧
      writePinRangeBits 13 3 5 = (5 <<< 13) ||| (2 <<< 29)) :=
  ⟨by refine ⟨by decide, by decide, by decide⟩,
    write_encode_spec_formula 13 3 5 ⟨0, 0, []⟩ (by decide) (by decide) (by decide)⟩

/-- C2, counterexample: at `offset = 0`, `count = 16`, `data = 1` the
write is a no-op (mask wrapped to 0) and the read returns 0, not
`data & ((1 << 16) - 1) = 1`. -/
theorem roundtrip_count16_counterexample :
    (read_pin_range 0 16 (write_pin_range 0 16 1 ⟨0, 0, []⟩)).1 = 0 ∧
    (1 : Nat) &&& ((1 <<< 16) - 1) = 1 ∧
    (read_pin_range 0 16 (write_pin_range 0 16 1 ⟨0, 0, []⟩)).1 ≠
      (1 : Nat) &&& ((1 <<< 16) - 1) := by
  refine ⟨by decide, by decide, by decide⟩

/-- C2 (amended with `count < 16`): writing a pin range and reading it
back through the simulated register pair returns
`data & ((1 << count) - 1)`, from any initial port state. -/
theorem write_read_roundtrip (offset count data : Nat) (s : PortState)
    (h0 : offset < 16) (h1 : count ≤ 16 - offset) (h2 : count < 16) (hd : data < 2 ^ 16) :
    (read_pin_range offset count (write_pin_range offset count data s)).1 =
      data &&& ((1 <<< count) - 1) := by
  have h1a : offset + count ≤ 16 := by omega
  simp only [read_pin_range, write_pin_range, Nat.one_shiftLeft]
  exact readAfterWriteValue offset count data s.odr h1a h2 hd

/-- Witness for `write_read_roundtrip` at offset 13, count 3,
data 0b101, starting from a port with pins 0x5555. -/
theorem write_read_roundtrip_witness :
    (13 < 16 ∧ 3 ≤ 16 - 13 ∧ 3 < 16 ∧ 5 < 2 ^ 16) ∧
    (read_pin_range 13 3 (write_pin_range 13 3 5 ⟨0x5555, 0, []⟩)).1 =
      5 &&& ((1 <<< 3) - 1) :=
  ⟨by refine ⟨by decide, by decide, by decide, by decide⟩,
    write_read_roundtrip 13 3 5 ⟨0x5555, 0, []⟩ (by decide) (by decide) (by decide) (by decide)⟩

/-- C3: `floating()` performs exactly the stores cnf-high := 0 then
cnf-low := 1 in that order; after each of its writes the pair
(cnf-low = 1, cnf-high = 1) is absent, whatever the initial fields; and
if the pair is absent at entry it is absent at every point of the call
including entry. -/
theorem floating_order_safe :
    ∀ s : ConfigState,
      opStores PinOp.floating = [(ConfigField.cnf_high, 0), (ConfigField.cnf_low, 1)] ∧
      ¬reservedPair (setField ConfigField.cnf_high 0 s) ∧
      ¬reservedPair (setField ConfigField.cnf_low 1 (setField ConfigField.cnf_high 0 s)) ∧
      runOp PinOp.floating s = setField ConfigField.cnf_low 1 (setField ConfigField.cnf_high 0 s) ∧
      (¬reservedPair s →
        ¬reservedPair s ∧ ¬reservedPair (setField ConfigField.cnf_high 0 s) ∧
          ¬reservedPair (setField ConfigField.cnf_low 1 (setField ConfigField.cnf_high 0 s))) := by
  intro s
  refine ⟨rfl, ?_, ?_, rfl, ?_⟩
  · simp [reservedPair, setField]
  · simp [reservedPair, setField]
  · intro h
    exact ⟨h, by simp [reservedPair, setField], by simp [reservedPair, setField]⟩

/-- Witness for `floating_order_safe` from the reset state. -/
theorem floating_order_safe_witness :
    ¬reservedPair (ConfigState.mk 0 0 0 0) :=
  ((floating_order_safe ⟨0, 0, 0, 0⟩).2.2.2.2 (by decide)).1

/-- C4: a range write changes no pin outside `[offset, offset + count)`
and performs no read of any port register (the IDR read count is
untouched, and the written value is a function of the arguments only,
never of the port state). -/
theorem write_pin_range_frame (offset count data : Nat) (s : PortState) (i : Nat)
    (h1 : offset + count ≤ 16) (hd : data < 2 ^ 16) (hodr : s.odr < 2 ^ 16)
    (hi : ¬(offset ≤ i ∧ i < offset + count)) :
    pinValue (write_pin_range offset count data s) i = pinValue s i ∧
    (write_pin_range offset count data s).idrReads = s.idrReads ∧
    (write_pin_range offset count data s).bsrrWrites =
      s.bsrrWrites ++ [writePinRangeBits offset count data] := by
  refine ⟨?_, rfl, rfl⟩
  simp only [pinValue, write_pin_range]
  exact bsrr_write_frame offset count data s.odr i h1 hd hodr hi

/-- Witness for `write_pin_range_frame`: writing pins 13–15 leaves
pin 0 of a port at state 0x1235 unchanged. -/
theorem write_pin_range_frame_witness :
    (13 + 3 ≤ 16 ∧ 5 < 2 ^ 16 ∧ (PortState.mk 0x1235 0 []).odr < 2 ^ 16 ∧
      ¬(13 ≤ 0 ∧ 0 < 13 + 3)) ∧
    (pinValue (write_pin_range 13 3 5 ⟨0x1235, 0, []⟩) 0 = pinValue ⟨0x1235, 0, []⟩ 0 ∧
      (write_pin_range 13 3 5 ⟨0x1235, 0, []⟩).idrReads = (PortState.mk 0x1235 0 []).idrReads ∧
      (write_pin_range 13 3 5 ⟨0x1235, 0, []⟩).bsrrWrites =
        ([] : List Nat) ++ [writePinRangeBits 13 3 5]) :=
  ⟨by refine ⟨by decide, by decide, by decide, by decide⟩,
    write_pin_range_frame 13 3 5 ⟨0x1235, 0, []⟩ 0 (by decide) (by decide) (by decide) (by decide)⟩

/-- C5: each builder method sets exactly its documented fields to the
documented bit values and leaves the fields it does not name unchanged;
`output2` then `open_drain` yields mode-low 0, mode-high 1, cnf-low 1
with cnf-high untouched; and the twelve named configurations are reached
with exactly the documented codes. -/
theorem builder_ops_exact_fields :
    ∀ s : ConfigState,
      runOp PinOp.input s = { s with mode_low := 0, mode_high := 0 } ∧
      runOp PinOp.output2 s = { s with mode_low := 0, mode_high := 1 } ∧
      runOp PinOp.output10 s = { s with mode_low := 1, mode_high := 0 } ∧
      runOp PinOp.output50 s = { s with mode_low := 1, mode_high := 1 } ∧
      runOp PinOp.push_pull s = { s with cnf_low := 0 } ∧
      runOp PinOp.open_drain s = { s with cnf_low := 1 } ∧
      runOp PinOp.general s = { s with cnf_high := 0 } ∧
      runOp PinOp.alternate s = { s with cnf_high := 1 } ∧
      runOp PinOp.analog s = { s with cnf_low := 0, cnf_high := 0 } ∧
      runOp PinOp.floating s = { s with cnf_low := 1, cnf_high := 0 } ∧
      runOp PinOp.pull_up_down s = { s with cnf_low := 0, cnf_high := 1 } ∧
      runOp PinOp.open_drain (runOp PinOp.output2 s) =
        { s with mode_low := 0, mode_high := 1, cnf_low := 1 } ∧
      runOp PinOp.analog (runOp PinOp.input s) = ⟨0, 0, 0, 0⟩ ∧
      runOp PinOp.floating (runOp PinOp.input s) = ⟨0, 0, 1, 0⟩ ∧
      runOp PinOp.pull_up_down (runOp PinOp.input s) = ⟨0, 0, 0, 1⟩ ∧
      runOp PinOp.general (runOp PinOp.push_pull (runOp PinOp.output2 s)) = ⟨0, 1, 0, 0⟩ ∧
      runOp PinOp.general (runOp PinOp.push_pull (runOp PinOp.output10 s)) = ⟨1, 0, 0, 0⟩ ∧
      runOp PinOp.general (runOp PinOp.push_pull (runOp PinOp.output50 s)) = ⟨1, 1, 0, 0⟩ ∧
      runOp PinOp.general (runOp PinOp.open_drain (runOp PinOp.output2 s)) = ⟨0, 1, 1, 0⟩ ∧
      runOp PinOp.general (runOp PinOp.open_drain (runOp PinOp.output10 s)) = ⟨1, 0, 1, 0⟩ ∧
      runOp PinOp.general (runOp PinOp.open_drain (runOp PinOp.output50 s)) = ⟨1, 1, 1, 0⟩ ∧
      runOp PinOp.alternate (runOp PinOp.push_pull (runOp PinOp.output2 s)) = ⟨0, 1, 0, 1⟩ ∧
      runOp PinOp.alternate (runOp PinOp.push_pull (runOp PinOp.output10 s)) = ⟨1, 0, 0, 1⟩ ∧
      runOp PinOp.alternate (runOp PinOp.push_pull (runOp PinOp.output50 s)) = ⟨1, 1, 0, 1⟩ := by
  intro s
  exact ⟨rfl, rfl, rfl, rfl, rfl, rfl, rfl, rfl, rfl, rfl, rfl, rfl, rfl, rfl, rfl, rfl,
    rfl, rfl, rfl, rfl, rfl, rfl, rfl, rfl⟩

/-- C6: `pin_config(pin)` returns the handle at
`ALIAS_BASE + (R - PERIPHERAL_BASE) * 32` plus the offset of array
entry `pin` (16 bytes per `GPIOBitbandConfigBlock`), with the spec's
constants; concretely for a port at 0x40011000 and pin 13 the handle
sits at 0x422200D0. -/
theorem pin_config_address_formula :
    ∀ r pin : Nat,
      to_bitband_address r = spec_alias_address r ∧
      pin_config_address r pin = spec_alias_address r + pin * 16 ∧
      PERIPHERALS_BASE = 0x40000000 ∧
      PERIPHERALS_ALIAS = 0x42000000 ∧
      pin_config_address 0x40011000 13 = 0x422200D0 := by
  intro r pin
  exact ⟨rfl, rfl, rfl, rfl, by decide⟩

/-- C7, counterexample: at `offset = 0`, `count = 16` with raw pin state
1, the read returns 0 while the claimed decode
`(raw >> offset) & ((1 << count) - 1)` gives 1. -/
theorem read_decode_count16_counterexample :
    (read_pin_range 0 16 ⟨1, 0, []⟩).1 = 0 ∧
    ((1 : Nat) >>> 0) &&& ((1 <<< 16) - 1) = 1 ∧
    (read_pin_range 0 16 ⟨1, 0, []⟩).1 ≠ ((1 : Nat) >>> 0) &&& ((1 <<< 16) - 1) := by
  refine ⟨by decide, by decide, by decide⟩

/-- C7 (amended with `count < 16`): `read_pin_range` reads the
input-data register exactly once, changes nothing else, and returns
`(raw >> offset) & ((1 << count) - 1)` where `raw` is the value read. -/
theorem read_pin_range_decode (offset count : Nat) (s : PortState)
    (h1 : offset + count ≤ 16) (h2 : count < 16) :
    (read_pin_range offset count s).1 = (s.odr >>> offset) &&& ((1 <<< count) - 1) ∧
    (read_pin_range offset count s).2 = { s with idrReads := s.idrReads + 1 } := by
  refine ⟨?_, rfl⟩
  have ho : offset % 32 = offset := Nat.mod_eq_of_lt (by omega)
  have hm : rangeMask count = 2 ^ count - 1 := rangeMask_eq h2
  simp only [read_pin_range]
  apply Nat.eq_of_testBit_eq
  intro k
  simp only [readPinRangeValue, ho, hm, Nat.one_shiftLeft, Nat.testBit_and,
    Nat.testBit_mod_two_pow, Nat.testBit_shiftRight, Nat.testBit_two_pow_sub_one]
  by_cases hk : k < count
  · simp [hk, show k < 16 from by omega]
  · simp [hk]

/-- Witness for `read_pin_range_decode` at offset 13, count 3 on a port
with pins 0xA123. -/
theorem read_pin_range_decode_witness :
    (13 + 3 ≤ 16 ∧ 3 < 16) ∧
    ((read_pin_range 13 3 ⟨0xA123, 7, []⟩).1 =
        ((PortState.mk 0xA123 7 []).odr >>> 13) &&& ((1 <<< 3) - 1) ∧
      (read_pin_range 13 3 ⟨0xA123, 7, []⟩).2 = { PortState.mk 0xA123 7 [] with idrReads := 7 + 1 }) :=
  ⟨⟨by decide, by decide⟩, read_pin_range_decode 13 3 ⟨0xA123, 7, []⟩ (by decide) (by decide)⟩

/-- C8: the mask computation `(1 << count) - 1` is performed at width 16
and therefore overflows exactly at the documented boundary
`count = 16`, `offset = 0`: in release semantics the mask wraps to 0
(write value 0, read value 0) instead of the total bit-arithmetic the
spec promises; debug builds panic at the shift. -/
theorem mask_shift_overflow_at_16 :
    maskShiftOverflows 16 ∧ ¬maskShiftOverflows 15 ∧
    rangeMask 16 = 0 ∧ rangeMask 15 = 2 ^ 15 - 1 ∧
    writePinRangeBits 0 16 1 = 0 ∧ readPinRangeValue 0 16 1 = 0 ∧
    specEncodeWrite 0 16 1 ≠ 0 := by
  refine ⟨by decide, by decide, by decide, by decide, by decide, by decide, by decide⟩

/-- C9, counterexample: the overlay cells are interleaved four-per-pin,
not split into a mode register and a cnf register: pin 0's cnf-low cell
aliases bit 2 of configuration register 0, not bit 0 of register 1, and
pin 1's mode-low cell aliases bit 4 of register 0, not bit 2. -/
theorem layout_interleaved_counterexample :
    aliasedRegister 0 ConfigField.cnf_low = 0 ∧
    specAliasedRegister ConfigField.cnf_low = 1 ∧
    aliasedRegister 0 ConfigField.cnf_low ≠ specAliasedRegister ConfigField.cnf_low ∧
    aliasedBitIndex 0 ConfigField.cnf_low = 2 ∧
    specAliasedBitIndex 0 ConfigField.cnf_low = 0 ∧
    aliasedBitIndex 1 ConfigField.mode_low = 4 ∧
    specAliasedBitIndex 1 ConfigField.mode_low = 2 := by
  refine ⟨by decide, by decide, by decide, by decide, by decide, by decide, by decide⟩

/-- C9 (amended): the four cells of `pin_config(p)` alias the four
consecutive bits `4*(p % 8) + 0..3` (mode-low, mode-high, cnf-low,
cnf-high in order) of configuration register `p / 8`; the two 32-bit
configuration registers each pack 8 pins × 4 bits. -/
theorem layout_interleaved :
    ∀ (pin : Nat) (f : ConfigField),
      aliasedRegister pin f = pin / 8 ∧
      aliasedBitIndex pin f = 4 * (pin % 8) + fieldByteOffset f / 4 := by
  intro pin f
  cases f <;>
    refine ⟨?_, ?_⟩ <;>
    simp only [aliasedRegister, aliasedBitIndex, cellWordIndex, cellByteOffset,
      configBlockSize, fieldByteOffset] <;>
    omega

/-- C10: every store any builder method issues writes the literal 0 or
1, and the invariant that all 64 configuration cells of a port hold 0
or 1 is preserved by every builder call and every sequence of them. -/
theorem config_writes_bit_valued :
    (∀ (op : PinOp) (fv : ConfigField × Nat), fv ∈ opStores op → isBit fv.2) ∧
    (∀ (l : List (Fin 16 × PinOp)) (c : PortConfig),
      portBits c → portBits (l.foldl (fun c2 pq => runOpAt pq.1 pq.2 c2) c)) := by
  constructor
  · intro op fv h
    cases op <;> fin_cases h <;> simp [isBit]
  · intro l
    induction l with
    | nil => intro c hc; exact hc
    | cons hd tl ih =>
      intro c hc
      exact ih _ (portBits_runOpAt hd.1 hd.2 c hc)

/-- Witness for `config_writes_bit_valued`: the `open_drain` store
writes a bit, and a concrete op sequence preserves the all-zero port. -/
theorem config_writes_bit_valued_witness :
    isBit ((ConfigField.cnf_low, 1) : ConfigField × Nat).2 ∧
    portBits (([(3, PinOp.output2), (3, PinOp.open_drain)] : List (Fin 16 × PinOp)).foldl
      (fun c2 pq => runOpAt pq.1 pq.2 c2) (fun _ => ⟨0, 0, 0, 0⟩)) :=
  ⟨config_writes_bit_valued.1 PinOp.open_drain _ (by simp [opStores]),
    config_writes_bit_valued.2 [(3, PinOp.output2), (3, PinOp.open_drain)]
      (fun _ => ⟨0, 0, 0, 0⟩)
      (fun _ => ⟨Or.inl rfl, Or.inl rfl, Or.inl rfl, Or.inl rfl⟩)⟩

end Stm32Extras
